import Mathlib

/-!
Verification of the substitution-rule engine of `unified-latex-to-pretext`
(files `environment-subs.ts` and the mathjax-specific macro replacements).

The document tree, the argument slots and the render hints are embedded as
inductive types; each rewrite rule of the source becomes a total Lean
function.  External collaborators (the paragraph-wrapping utility, the
tabular-conversion delegate and the systeme equation-array builder) are
passed in as function parameters, exactly as the source treats them as
opaque imported functions.
-/

set_option maxHeartbeats 1000000

namespace UnifiedLatexToPretext

mutual

/-- Embedding of the `Ast.Node` tagged union: strings, whitespace,
paragraph breaks, comments, macros (with optional argument list and the
`_renderInfo.sysdelims` hint), environments, and the html-like escape-hatch
node produced by the external `htmlLike` constructor (a tag, a content
sequence and an attribute set). -/
inductive Node where
  | str (content : String)
  | whitespace
  | parbreak
  | comment (content : String)
  | macroNode (content : String) (args : Option (List Arg)) (sysdelims : SysDelims)
  | environment (env : String) (args : List Arg) (content : List Node)
  | html (tag : String) (content : List Node) (attributes : List (String × String))

/-- One argument slot of a macro or environment: its open mark, close mark
and content sequence. -/
inductive Arg where
  | mk (openMark : String) (closeMark : String) (content : List Node)

/-- The `_renderInfo.sysdelims` render hint of a macro node: either absent,
or a resolved pair of front/back delimiter token sequences. -/
inductive SysDelims where
  | noneHint
  | hint (front : List Node) (back : List Node)

end

/-- Open mark of an argument slot. -/
def Arg.openMark : Arg → String
  | .mk o _ _ => o

/-- Close mark of an argument slot. -/
def Arg.closeMark : Arg → String
  | .mk _ c _ => c

/-- Content sequence of an argument slot. -/
def Arg.content : Arg → List Node
  | .mk _ _ c => c

/-- Modelled from the spec: a diagnostic message sent to the sink attached
to the file being processed (`emit(message, sourcePosition, originTag)`),
as built by the external `makeWarningMessage` helper.  The source position
is represented by the name of the node the message was attached to. -/
structure Message where
  message : String
  source : String
  place : String
deriving DecidableEq

/-- The diagnostic sink of a `VFile`: the ordered list of messages appended
to it so far. -/
abbrev VFile := List Message

/-- The rule-facing view of an environment node: its name, argument list,
(already rewritten) content, and the `_renderInfo.additionalAttributes`
render hint (the empty list when the hint is absent). -/
structure EnvNode where
  env : String
  args : List Arg
  content : List Node
  additionalAttributes : List (String × String)

/-- Modelled from the spec: the content of one positional argument slot as
the external `getArgsContent` projects it — `none` when the slot was not
actually supplied (empty open mark and no content), otherwise the content
sequence; a slot that is present but empty is distinct from an absent one. -/
def argContent (a : Arg) : Option (List Node) :=
  match a.openMark, a.content with
  | "", [] => none
  | _, _ => some a.content

/-- Modelled from the spec: the external `getArgsContent` of
`unified-latex-util-arguments` — the positional-slot projection of a node's
raw argument list (the empty list when the node has no argument list). -/
def getArgsContent (node : Node) : List (Option (List Node)) :=
  match node with
  | .macroNode _ (some args) _ => args.map argContent
  | .environment _ args _ => args.map argContent
  | _ => []

/-- Positional-slot projection of the argument list of an environment node
(the environment overload of the external `getArgsContent`). -/
def getArgsContentOfEnv (env : EnvNode) : List (Option (List Node)) :=
  env.args.map argContent

/-- The 1-slot argument signature of a regular `\item`
(`ITEM_ARG_NAMES_REG = ["label"]`). -/
def ITEM_ARG_NAMES_REG : List (Option String) := [some "label"]

/-- The 3-slot argument signature of the beamer `\item` variant
(`ITEM_ARG_NAMES_BEAMER = [null, "label", null]`): the label is the middle
slot, the other two are ignored. -/
def ITEM_ARG_NAMES_BEAMER : List (Option String) := [none, some "label", none]

/-- Modelled from the spec: the external `getNamedArgsContent` of
`unified-latex-util-arguments`, specialised to the only named slot the core
consumes (`"label"`).  Per the spec's ArgumentView contract it fails —
signalling a defect, not a user error — when the node's argument count does
not match the declared signature; the reserved trailing body slot is
consumed separately and is ignored in the comparison.  On success it yields
the `"label"` slot: `none` when the slot is absent, otherwise the slot's
(possibly empty) content. -/
def getNamedArgsContent (args : List Arg) (argNames : List (Option String)) :
    Except String (Option (List Node)) :=
  if args.length - 1 ≠ argNames.length then
    .error "argument signature mismatch"
  else
    .ok ((((argNames.zip args).find? (fun p => p.1 == some "label")).bind
      (fun p => argContent p.2)))

/-- The named slots of an `\item` macro: the optional label and the body
that the traversal driver attached as the last argument. -/
structure ItemArgs where
  label : Option (List Node)
  body : List Node

/-- Extraction of the arguments of an `\item` macro (`getItemArgs`): fails
when the node carries no argument list at all, when there is no trailing
body argument, or when the argument count matches neither accepted
signature; the beamer signature is chosen exactly when the argument count
minus the body slot equals its length. -/
def getItemArgs (node : Node) : Except String ItemArgs :=
  match node with
  | .macroNode _ (some args) _ =>
    let argNames :=
      if args.length - 1 = ITEM_ARG_NAMES_BEAMER.length then
        ITEM_ARG_NAMES_BEAMER
      else
        ITEM_ARG_NAMES_REG
    match args.getLast? with
    | none => .error "cannot find the item body attached as the last argument"
    | some lastArg =>
      match getNamedArgsContent args argNames with
      | .error e => .error e
      | .ok label => .ok ⟨label, lastArg.content⟩
  | _ =>
    .error "cannot find item macro arguments; the item body must be attached to the macro before calling this function"

/-- The structural predicate `match.macro(node, name)`. -/
def matchMacro (node : Node) (name : String) : Bool :=
  match node with
  | .macroNode content _ _ => content == name
  | _ => false

/-- Success test for an `Except` value. -/
def exceptIsOk : Except ε α → Bool
  | .ok _ => true
  | .error _ => false

/-- Whether an `\item` node is well formed for the enumerate rule: its
argument extraction succeeds. -/
def itemWellFormed (n : Node) : Bool :=
  exceptIsOk (getItemArgs n)

/-- Whether an `\item` node carries a (possibly empty) label slot. -/
def itemHasLabel (n : Node) : Bool :=
  match getItemArgs n with
  | .ok ia => ia.label.isSome
  | .error _ => false

/-- Whether an `\item` node carries a label slot that is present but empty
(supplied as an empty node sequence, distinct from absent). -/
def itemHasEmptyLabel (n : Node) : Bool :=
  match getItemArgs n with
  | .ok ia =>
    match ia.label with
    | some [] => true
    | _ => false
  | .error _ => false

/-- The body of the `flatMap` over the item children inside
`enumerateFactory`: an item without an attached argument list (and any
non-macro node) is skipped, producing no list item; otherwise the item's
named slots are extracted, its body is paragraph-wrapped, and — when a
custom label was supplied — a `title` element holding the label is
prepended to the body before the whole is wrapped in an `li` element.  The
returned flag records whether this item supplied a custom label. -/
def enumItemToLi (wrapPars : List Node → List Node) (node : Node) :
    Except String (List Node × Bool) :=
  match node with
  | .macroNode _ (some _) _ =>
    match getItemArgs node with
    | .error e => .error e
    | .ok namedArgs =>
      let body := wrapPars namedArgs.body
      match namedArgs.label with
      | some label =>
        .ok ([Node.html "li" (Node.html "title" label [] :: body) []], true)
      | none => .ok ([Node.html "li" body []], false)
  | _ => .ok ([], false)

/-- Sequential collection of the list items produced by `enumItemToLi`,
concatenating their output nodes and or-ing their `isDescriptionList`
flags; the first extraction failure propagates, as the thrown exception
does in the source's `flatMap`. -/
def collectItems (wrapPars : List Node → List Node) :
    List Node → Except String (List Node × Bool)
  | [] => .ok ([], false)
  | n :: rest =>
    match enumItemToLi wrapPars n with
    | .error e => .error e
    | .ok (l, b) =>
      match collectItems wrapPars rest with
      | .error e => .error e
      | .ok (ls, bs) => .ok (l ++ ls, b || bs)

/-- A replacement produced by a rule: either a single node or a node
sequence (`Ast.Node | Ast.Node[]`). -/
abbrev Replacement := Node ⊕ List Node

/-- Number of replacement nodes carried by a `Replacement`. -/
def replacementCount : Replacement → Nat
  | .inl _ => 1
  | .inr l => l.length

/-- The type of an environment-replacement rule
`(node, info, file?) => Ast.Node | Ast.Node[]`: the traversal position is
unused by every rule in this module and is embedded as `Unit`; the optional
`VFile` is threaded through explicitly so that diagnostic emission becomes
state passing; a thrown exception becomes `Except.error`. -/
abbrev EnvRule :=
  EnvNode → Unit → Option VFile → Except String (Replacement × Option VFile)

/-- The rule produced by `enumerateFactory(parentTag)`: filter the
environment's content down to its `\item` children, convert each to a list
item, and emit one list element whose tag is the description-list tag
`"dl"` when any item supplied a custom label and the caller-supplied
default tag otherwise.  The paragraph-wrapping utility is a parameter, as
it is an external import in the source. -/
def enumerateFactory (wrapPars : List Node → List Node) (parentTag : String) :
    EnvRule := fun env _info file =>
  let items := env.content.filter (fun n => matchMacro n "item")
  match collectItems wrapPars items with
  | .error e => .error e
  | .ok (content, isDescriptionList) =>
    .ok (.inl (Node.html (if isDescriptionList then "dl" else parentTag) content []),
      file)

/-- Modelled from the spec: the external `makeWarningMessage(node, message,
source)` helper — it packages a warning message with its origin tag and the
node's source position (here represented by the environment's name). -/
def makeWarningMessage (env : EnvNode) (message : String) (source : String) :
    Message :=
  { message := message, source := source, place := env.env }

/-- The declarative option set of `envFactory`, with the source's default
values. -/
structure EnvFactoryOptions where
  requiresStatementTag : Bool := false
  wrapContentInPars : Bool := true
  extractTitleFromArgs : Bool := true
  warningMessage : String := ""

/-- The diagnostic-emission step of `envFactory`: when a warning message is
configured and a file is attached, append the warning to the file's sink;
otherwise leave the file untouched. -/
def envFactoryWarn (options : EnvFactoryOptions) (env : EnvNode)
    (file : Option VFile) : Option VFile :=
  if options.warningMessage = "" then file
  else file.map
    (fun f => f ++ [makeWarningMessage env options.warningMessage "env-subs"])

/-- The content composition of `envFactory`: paragraph-wrap the
environment's content unless disabled, wrap it in a `statement` element
when requested, then prepend a `title` element holding the first positional
argument when title extraction is on and that argument was actually
supplied (a supplied-but-empty argument still yields a title, as it is
truthy in the source). -/
def envFactoryContent (wrapPars : List Node → List Node)
    (options : EnvFactoryOptions) (env : EnvNode) : List Node :=
  let content0 :=
    if options.wrapContentInPars then wrapPars env.content else env.content
  let content1 :=
    if options.requiresStatementTag then [Node.html "statement" content0 []]
    else content0
  if options.extractTitleFromArgs then
    match (getArgsContentOfEnv env).get? 0 with
    | some (some title) => Node.html "title" title [] :: content1
    | _ => content1
  else content1

/-- The rule body of `envFactory(tag, options)`: the diagnostic emission
and the content composition above, producing exactly one html-like element
with the given tag and the `additionalAttributes` render hint. -/
def envFactory (wrapPars : List Node → List Node) (tag : String)
    (options : EnvFactoryOptions) : EnvRule := fun env _info file =>
  .ok (.inl (Node.html tag (envFactoryContent wrapPars options env)
      env.additionalAttributes),
    envFactoryWarn options env file)

/-- The fallback rule `removeEnv`: delete the environment wrapper, return
its content unchanged, and append one warning naming the removed
environment to the attached file. -/
def removeEnv : EnvRule := fun env _info file =>
  let file1 := file.map (fun f => f ++
    [makeWarningMessage env
      ("Warning: There is no equivalent tag for \"" ++ env.env ++ "\", so the "
        ++ env.env ++ " environment was removed.")
      "environment-subs"])
  .ok (.inr env.content, file1)

/-- One row of the static alias table: the canonical name's
`requiresStatement` flag and its alternate spellings. -/
structure EnvAliasSpec where
  requiresStatement : Bool
  aliases : List String
deriving DecidableEq

/-- The static alias table `envAliases` of `genEnvironmentReplacements`, in
source order: every supported canonical PreTeXt block name with its
`requiresStatement` flag and its alternate spellings. -/
def envAliases : List (String × EnvAliasSpec) :=
  [ ("abstract", ⟨false, ["abs", "abstr"]⟩),
    ("acknowledgement", ⟨false, ["ack"]⟩),
    ("algorithm", ⟨true, ["algo", "alg"]⟩),
    ("answer", ⟨false, ["ans"]⟩),
    ("assumption", ⟨true, ["assu", "ass"]⟩),
    ("axiom", ⟨true, ["axm"]⟩),
    ("claim", ⟨true, ["cla"]⟩),
    ("conjecture", ⟨true, ["con", "conj", "conjec"]⟩),
    ("construction", ⟨false, []⟩),
    ("convention", ⟨false, ["conv"]⟩),
    ("corollary", ⟨true, ["cor", "corr", "coro", "corol", "corss"]⟩),
    ("definition", ⟨true, ["def", "defn", "dfn", "defi", "defin", "de"]⟩),
    ("example", ⟨true, ["exam", "exa", "eg", "exmp", "expl", "exm"]⟩),
    ("exercise", ⟨true, ["exer", "exers"]⟩),
    ("exploration", ⟨false, []⟩),
    ("fact", ⟨true, []⟩),
    ("heuristic", ⟨true, []⟩),
    ("hint", ⟨false, []⟩),
    ("hypothesis", ⟨true, ["hyp"]⟩),
    ("identity", ⟨true, ["idnty"]⟩),
    ("insight", ⟨false, []⟩),
    ("investigation", ⟨false, []⟩),
    ("lemma", ⟨true, ["lem", "lma", "lemm", "lm"]⟩),
    ("notation", ⟨false, ["no", "nota", "ntn", "nt", "notn", "notat"]⟩),
    ("note", ⟨false, ["notes"]⟩),
    ("observation", ⟨false, ["obs"]⟩),
    ("principle", ⟨true, []⟩),
    ("problem", ⟨true, ["prob", "prb"]⟩),
    ("project", ⟨false, []⟩),
    ("proof", ⟨false, ["pf", "prf", "demo"]⟩),
    ("proposition", ⟨true, ["prop", "pro", "prp", "props"]⟩),
    ("question", ⟨true, ["qu", "ques", "quest", "qsn"]⟩),
    ("remark", ⟨false, ["rem", "rmk", "rema", "bem", "subrem"]⟩),
    ("task", ⟨true, []⟩),
    ("theorem", ⟨true, ["thm", "theo", "theor", "thmss", "thrm"]⟩),
    ("solution", ⟨false, ["sol"]⟩),
    ("warning", ⟨false, ["warn", "wrn"]⟩) ]

/-- The expansion of the alias table (`exapandedEnvAliases`, keeping the
source's spelling): for each canonical name, one registry entry for the
canonical name itself and one per alias, each built by `envFactory` with
that row's `requiresStatement` flag and every other option at its
default. -/
def exapandedEnvAliases (wrapPars : List Node → List Node) :
    List (String × EnvRule) :=
  envAliases.flatMap (fun p =>
    (p.1, envFactory wrapPars p.1 { requiresStatementTag := p.2.requiresStatement })
      :: p.2.aliases.map (fun name =>
        (name, envFactory wrapPars p.1 { requiresStatementTag := p.2.requiresStatement })))

/-- The generated part of the registry (`genEnvironmentReplacements()`,
i.e. `Object.fromEntries(exapandedEnvAliases)`): an entry list read with
the later-binding-wins lookup of a JavaScript object. -/
def genEnvironmentReplacements (wrapPars : List Node → List Node) :
    List (String × EnvRule) :=
  exapandedEnvAliases wrapPars

/-- Lookup in an entry list with JavaScript object-literal semantics: a
later binding of the same key overwrites an earlier one. -/
def jsLookup : List (String × α) → String → Option α
  | [], _ => none
  | (k1, v) :: rest, k =>
    match jsLookup rest k with
    | some r => some r
    | none => if k1 = k then some v else none

/-- The assembled registry `environmentReplacements`: the hand-written
entries in source order, followed (as the object spread places them) by
the generated alias entries.  The tabular delegate
`createTableFromTabular` is an external collaborator and is therefore a
parameter, like the paragraph-wrapping utility. -/
def environmentReplacements (wrapPars : List Node → List Node)
    (createTableFromTabular : EnvRule) : List (String × EnvRule) :=
  [ ("enumerate", enumerateFactory wrapPars "ol"),
    ("itemize", enumerateFactory wrapPars "ul"),
    ("tabular", createTableFromTabular),
    ("center", envFactory wrapPars "blockquote" {}),
    ("quote", envFactory wrapPars "blockquote" {}),
    ("figure", envFactory wrapPars "figure"
      { requiresStatementTag := false, wrapContentInPars := false,
        extractTitleFromArgs := false }),
    ("table", envFactory wrapPars "table"
      { requiresStatementTag := false, wrapContentInPars := false,
        extractTitleFromArgs := false }) ]
    ++ genEnvironmentReplacements wrapPars

/-- The selector names of the generated alias entries, in entry order. -/
def genKeys : List String :=
  envAliases.flatMap (fun p => p.1 :: p.2.aliases)

/-- The selector names of the assembled registry, in entry order. -/
def registryKeys : List String :=
  ["enumerate", "itemize", "tabular", "center", "quote", "figure", "table"]
    ++ genKeys

/-- The `\left` marker macro of the systeme rule. -/
def LEFT : Node := Node.macroNode "left" none SysDelims.noneHint

/-- The `\right` marker macro of the systeme rule. -/
def RIGHT : Node := Node.macroNode "right" none SysDelims.noneHint

/-- The default opening-brace delimiter token of the systeme rule. -/
def DEFAULT_LEFT_DELIM : Node := Node.macroNode "\x7b" none SysDelims.noneHint

/-- The default trailing-period delimiter token of the systeme rule. -/
def DEFAULT_RIGHT_DELIM : Node := Node.str "."

/-- The `sysdelims` render hint attached to a node (absent on non-macro
nodes). -/
def sysdelimsOf : Node → SysDelims
  | .macroNode _ _ sd => sd
  | _ => SysDelims.noneHint

/-- The optional whitelist of permitted free variables of a `\systeme`
macro: its second positional argument (`args[1] || undefined`). -/
def systemeWhitelist (node : Node) : Option (List Node) :=
  ((getArgsContent node).get? 1).join

/-- The equation-system body of a `\systeme` macro: its fourth positional
argument (`args[3] || []`). -/
def systemeEquations (node : Node) : List Node :=
  (((getArgsContent node).get? 3).join).getD []

/-- The `systeme` macro rule: extract the whitelist and the equation body,
convert the body to an aligned array via the external
`systemeContentsToArray` (a parameter here; the source fixes
`properSpacing: false`), then wrap the result between `\left`/`\right`
using the resolved delimiter sequences of the `sysdelims` render hint when
one is attached and the fixed default open-brace/trailing-period pair
otherwise.  Any conversion failure is caught and degrades to returning the
original node unchanged. -/
def systemeReplacement
    (systemeContentsToArray : List Node → Option (List Node) → Except Unit Node)
    (node : Node) : Replacement :=
  match systemeContentsToArray (systemeEquations node) (systemeWhitelist node) with
  | .error _ => .inl node
  | .ok ret =>
    match sysdelimsOf node with
    | .hint frontDelim backDelim =>
      .inr ([LEFT] ++ frontDelim ++ [ret, RIGHT] ++ backDelim)
    | .noneHint =>
      .inr [LEFT, DEFAULT_LEFT_DELIM, ret, RIGHT, DEFAULT_RIGHT_DELIM]

/-- The `sysdelim` macro rule: always rewrite to the empty node sequence. -/
def sysdelimReplacement (_node : Node) : Replacement :=
  .inr []

/-- The mathjax-specific macro registry: the `systeme` rule and the
`sysdelim` rule, keyed by macro name. -/
def mathjaxSpecificMacroReplacements
    (systemeContentsToArray : List Node → Option (List Node) → Except Unit Node) :
    List (String × (Node → Replacement)) :=
  [ ("systeme", systemeReplacement systemeContentsToArray),
    ("sysdelim", sysdelimReplacement) ]

/-- Helper: looking up a key absent from an entry list yields nothing. -/
theorem jsLookup_eq_none (l : List (String × α)) (k : String)
    (h : k ∉ l.map Prod.fst) : jsLookup l k = none := by
  induction l with
  | nil => rfl
  | cons p rest ih =>
    obtain ⟨k1, v⟩ := p
    simp only [List.map_cons, List.mem_cons] at h
    push_neg at h
    obtain ⟨h1, h2⟩ := h
    simp only [jsLookup, ih h2]
    rw [if_neg (fun hk => h1 hk.symm)]

/-- Helper: in an entry list with pairwise-distinct keys, the JavaScript
object lookup finds exactly the entry's value. -/
theorem jsLookup_of_nodup :
    ∀ (l : List (String × α)), (l.map Prod.fst).Nodup →
      ∀ k v, (k, v) ∈ l → jsLookup l k = some v := by
  intro l
  induction l with
  | nil => intro _ k v hm; cases hm
  | cons p rest ih =>
    intro h k v hm
    obtain ⟨k1, v1⟩ := p
    simp only [List.map_cons, List.nodup_cons] at h
    obtain ⟨hk1, hrest⟩ := h
    rcases List.mem_cons.mp hm with heq | hmem
    · cases heq
      simp [jsLookup, jsLookup_eq_none rest k hk1]
    · simp only [jsLookup, ih hrest k v hmem]

/-- Helper: the selector names of the generated entries do not depend on
the externally supplied paragraph-wrapping utility. -/
theorem genEnvironmentReplacements_keys (wrapPars : List Node → List Node) :
    (genEnvironmentReplacements wrapPars).map Prod.fst = genKeys := rfl

/-- Helper: the selector names of the assembled registry do not depend on
the externally supplied collaborators. -/
theorem environmentReplacements_keys (wrapPars : List Node → List Node)
    (createTableFromTabular : EnvRule) :
    (environmentReplacements wrapPars createTableFromTabular).map Prod.fst
      = registryKeys := rfl

/-- Helper: the generated selector names are pairwise distinct — no alias
is listed twice and no alias collides with a canonical name. -/
theorem genKeys_nodup : genKeys.Nodup := by decide

/-- Helper: the selector names of the whole assembled registry are pairwise
distinct — in particular no generated alias collides with a hand-written
entry. -/
theorem registryKeys_nodup : registryKeys.Nodup := by decide

/-- Helper: every alias-table row contributes, for the canonical name and
for each alias, a generated entry whose rule is `envFactory` applied to the
canonical name with that row's `requiresStatement` flag. -/
theorem mem_exapanded_of_alias (wrapPars : List Node → List Node)
    (c : String) (spec : EnvAliasSpec) (name : String)
    (hrow : (c, spec) ∈ envAliases)
    (hname : name = c ∨ name ∈ spec.aliases) :
    (name, envFactory wrapPars c
        { requiresStatementTag := spec.requiresStatement })
      ∈ exapandedEnvAliases wrapPars := by
  unfold exapandedEnvAliases
  apply List.mem_flatMap.mpr
  refine ⟨(c, spec), hrow, ?_⟩
  rcases hname with rfl | halias
  · exact List.mem_cons_self _ _
  · exact List.mem_cons_of_mem _ (List.mem_map_of_mem _ halias)

/-- Helper: whether a list-item element begins with a `title` element. -/
def liStartsWithTitle : Node → Bool
  | .html "li" (.html "title" _ _ :: _) _ => true
  | _ => false

/-- Helper: a non-empty list has a last element. -/
theorem exists_getLast?_cons (a : α) (l : List α) :
    ∃ x, (a :: l).getLast? = some x := by
  induction l generalizing a with
  | nil => exact ⟨a, rfl⟩
  | cons b t ih =>
    obtain ⟨x, hx⟩ := ih b
    exact ⟨x, by rw [List.getLast?_cons_cons, hx]⟩

/-- Helper: a well-formed item's argument extraction succeeds. -/
theorem itemWellFormed_ok (n : Node) (h : itemWellFormed n = true) :
    ∃ ia, getItemArgs n = .ok ia := by
  unfold itemWellFormed exceptIsOk at h
  cases hgi : getItemArgs n with
  | ok ia => exact ⟨ia, rfl⟩
  | error e => rw [hgi] at h; cases h

/-- Helper: the list item produced for an item whose argument extraction
succeeds — its paragraph-wrapped body, preceded by a `title` element
exactly when a label slot was supplied, and a flag recording that. -/
theorem enumItemToLi_of_ok (wrapPars : List Node → List Node) (n : Node)
    (ia : ItemArgs) (h : getItemArgs n = .ok ia) :
    enumItemToLi wrapPars n
      = .ok ((match ia.label with
          | some label =>
            [Node.html "li" (Node.html "title" label [] :: wrapPars ia.body) []]
          | none => [Node.html "li" (wrapPars ia.body) []]),
        ia.label.isSome) := by
  obtain ⟨label, body⟩ := ia
  cases n with
  | macroNode nm args sd =>
    cases args with
    | none => exact absurd h (by simp [getItemArgs])
    | some as =>
      simp only [enumItemToLi]
      rw [h]
      cases label <;> rfl
  | str s => exact absurd h (by simp [getItemArgs])
  | whitespace => exact absurd h (by simp [getItemArgs])
  | parbreak => exact absurd h (by simp [getItemArgs])
  | comment s => exact absurd h (by simp [getItemArgs])
  | environment e ar c => exact absurd h (by simp [getItemArgs])
  | html t c at2 => exact absurd h (by simp [getItemArgs])

/-- Helper: an item's label flag agrees with `itemHasLabel` once extraction
succeeds. -/
theorem itemHasLabel_of_ok (n : Node) (ia : ItemArgs)
    (h : getItemArgs n = .ok ia) : itemHasLabel n = ia.label.isSome := by
  simp [itemHasLabel, h]

/-- Helper: over well-formed items, the collected list items succeed and
the description-list flag equals "some item carries a label". -/
theorem collectItems_ok (wrapPars : List Node → List Node)
    (items : List Node) (h : ∀ n ∈ items, itemWellFormed n = true) :
    ∃ content,
      collectItems wrapPars items = .ok (content, items.any itemHasLabel) := by
  induction items with
  | nil => exact ⟨[], rfl⟩
  | cons n rest ih =>
    obtain ⟨ia, hia⟩ := itemWellFormed_ok n (h n (List.mem_cons_self n rest))
    obtain ⟨c, hc⟩ := ih (fun m hm => h m (List.mem_cons_of_mem n hm))
    have hli := enumItemToLi_of_ok wrapPars n ia hia
    refine ⟨(match ia.label with
      | some label =>
        [Node.html "li" (Node.html "title" label [] :: wrapPars ia.body) []]
      | none => [Node.html "li" (wrapPars ia.body) []]) ++ c, ?_⟩
    simp only [collectItems, hli, hc, List.any_cons,
      itemHasLabel_of_ok n ia hia]

/-- Helper: an item with a present-but-empty label still counts as carrying
a label. -/
theorem itemHasLabel_of_emptyLabel (n : Node)
    (h : itemHasEmptyLabel n = true) : itemHasLabel n = true := by
  unfold itemHasEmptyLabel at h
  unfold itemHasLabel
  cases hgi : getItemArgs n with
  | error e => rw [hgi] at h; simp at h
  | ok ia =>
    obtain ⟨label, body⟩ := ia
    rw [hgi] at h
    cases label with
    | none => simp at h
    | some l => simp

/-- C2 (amended): for every enumerate/itemize environment whose item
children are well formed, the output list element's tag is the
caller-supplied default when no item carries a label slot and the
description-list tag `"dl"` when at least one does; every item that
carries a non-null label gains a `title` sub-element prepended before its
paragraph-wrapped body (items without a label get no title). -/
theorem claim_C2 (wrapPars : List Node → List Node) (parentTag : String)
    (env : EnvNode) (info : Unit) (file : Option VFile)
    (hwf : ∀ n ∈ env.content.filter (fun m => matchMacro m "item"),
      itemWellFormed n = true) :
    (∃ lis, enumerateFactory wrapPars parentTag env info file
        = .ok (.inl (Node.html
            (if (env.content.filter (fun m => matchMacro m "item")).any
                itemHasLabel
              then "dl" else parentTag) lis []), file))
    ∧ ∀ n ∈ env.content.filter (fun m => matchMacro m "item"),
        itemHasLabel n = true →
        ∃ label body, getItemArgs n = .ok ⟨some label, body⟩
          ∧ enumItemToLi wrapPars n
              = .ok ([Node.html "li"
                  (Node.html "title" label [] :: wrapPars body) []], true) := by
  constructor
  · obtain ⟨c, hc⟩ := collectItems_ok wrapPars _ hwf
    refine ⟨c, ?_⟩
    simp only [enumerateFactory, hc]
  · intro n hn hlab
    obtain ⟨ia, hia⟩ := itemWellFormed_ok n (hwf n hn)
    obtain ⟨label, body⟩ := ia
    cases label with
    | none =>
      rw [itemHasLabel_of_ok n ⟨none, body⟩ hia] at hlab
      simp at hlab
    | some l =>
      refine ⟨l, body, hia, ?_⟩
      have hli := enumItemToLi_of_ok wrapPars n ⟨some l, body⟩ hia
      simpa using hli

/-- C2 counterexample: a two-item list in which only the first item carries
a label converts to a `"dl"` whose second list item gains no title
sub-element, refuting the claim that every item's list-item element gains a
title when at least one item is labelled. -/
theorem claim_C2_counterexample :
    enumerateFactory (fun l => l) "ul"
      ⟨"itemize", [],
        [Node.macroNode "item"
            (some [Arg.mk "[" "]" [Node.str "K"], Arg.mk "\x7b" "\x7d" [Node.str "a"]])
            SysDelims.noneHint,
          Node.macroNode "item"
            (some [Arg.mk "" "" [], Arg.mk "\x7b" "\x7d" [Node.str "b"]])
            SysDelims.noneHint], []⟩ () none
      = .ok (.inl (Node.html "dl"
          [Node.html "li" [Node.html "title" [Node.str "K"] [], Node.str "a"] [],
            Node.html "li" [Node.str "b"] []] []), none)
    ∧ liStartsWithTitle (Node.html "li" [Node.str "b"] []) = false := by
  exact ⟨rfl, rfl⟩

/-- C2 witness: a concrete one-item labelled itemize environment satisfies
the well-formedness hypothesis, is classified as a description list, and
its item gains a title sub-element. -/
theorem claim_C2_witness :
    (∀ n ∈ (EnvNode.mk "itemize" []
        [Node.macroNode "item"
          (some [Arg.mk "[" "]" [Node.str "K"], Arg.mk "\x7b" "\x7d" [Node.str "a"]])
          SysDelims.noneHint] []).content.filter
        (fun m => matchMacro m "item"),
      itemWellFormed n = true)
    ∧ ((∃ lis, enumerateFactory (fun l => l) "ul"
          (EnvNode.mk "itemize" []
            [Node.macroNode "item"
              (some [Arg.mk "[" "]" [Node.str "K"], Arg.mk "\x7b" "\x7d" [Node.str "a"]])
              SysDelims.noneHint] []) () none
          = .ok (.inl (Node.html
              (if ((EnvNode.mk "itemize" []
                  [Node.macroNode "item"
                    (some [Arg.mk "[" "]" [Node.str "K"],
                      Arg.mk "\x7b" "\x7d" [Node.str "a"]])
                    SysDelims.noneHint] []).content.filter
                  (fun m => matchMacro m "item")).any itemHasLabel
                then "dl" else "ul") lis []), none))
      ∧ ∀ n ∈ (EnvNode.mk "itemize" []
            [Node.macroNode "item"
              (some [Arg.mk "[" "]" [Node.str "K"], Arg.mk "\x7b" "\x7d" [Node.str "a"]])
              SysDelims.noneHint] []).content.filter
            (fun m => matchMacro m "item"),
          itemHasLabel n = true →
          ∃ label body, getItemArgs n = .ok ⟨some label, body⟩
            ∧ enumItemToLi (fun l => l) n
                = .ok ([Node.html "li"
                    (Node.html "title" label [] :: (fun l => l) body) []],
                  true)) := by
  exact ⟨by decide, claim_C2 (fun l => l) "ul" _ () none (by decide)⟩

/-- C8: item-argument extraction succeeds exactly when the item's argument
count matches one of the two accepted signatures — the 1-slot label form
plus body (two arguments) or the 3-slot beamer form plus body (four
arguments) — and fails, signalling a defect, for every other count and
when no argument list was attached at all. -/
theorem claim_C8 (name : String) (sd : SysDelims) :
    (∀ args : List Arg,
      exceptIsOk (getItemArgs (Node.macroNode name (some args) sd)) = true
        ↔ (args.length = 2 ∨ args.length = 4))
    ∧ exceptIsOk (getItemArgs (Node.macroNode name none sd)) = false := by
  constructor
  · intro args
    match args with
    | [] =>
      have h : exceptIsOk (getItemArgs (Node.macroNode name (some []) sd))
          = false := rfl
      simp [h]
    | [a] =>
      have h : exceptIsOk (getItemArgs (Node.macroNode name (some [a]) sd))
          = false := rfl
      simp [h]
    | [a, b] =>
      have h : exceptIsOk (getItemArgs (Node.macroNode name (some [a, b]) sd))
          = true := rfl
      simp [h]
    | [a, b, c] =>
      have h : exceptIsOk
          (getItemArgs (Node.macroNode name (some [a, b, c]) sd)) = false := rfl
      simp [h]
    | [a, b, c, d] =>
      have h : exceptIsOk
          (getItemArgs (Node.macroNode name (some [a, b, c, d]) sd)) = true := rfl
      simp [h]
    | a :: b :: c :: d :: e :: rest =>
      have hgn : ∀ argNames : List (Option String), argNames.length ≤ 3 →
          getNamedArgsContent (a :: b :: c :: d :: e :: rest) argNames
            = .error "argument signature mismatch" := by
        intro an hle
        unfold getNamedArgsContent
        rw [if_pos (by simp only [List.length_cons]; omega)]
      have h : exceptIsOk (getItemArgs
          (Node.macroNode name (some (a :: b :: c :: d :: e :: rest)) sd))
          = false := by
        obtain ⟨x, hx⟩ := exists_getLast?_cons a (b :: c :: d :: e :: rest)
        simp only [getItemArgs, hx]
        rw [hgn _ (by split <;> simp [ITEM_ARG_NAMES_BEAMER, ITEM_ARG_NAMES_REG])]
        rfl
      rw [h]
      simp only [List.length_cons]
      constructor
      · intro hft; cases hft
      · intro hlen; exfalso; omega
  · rfl

/-- C10: for every list environment with well-formed items, an item whose
label slot is present but empty (supplied as an empty node sequence,
distinct from absent) still makes the whole list a description list tagged
`"dl"`, and that item gains a `title` sub-element with empty content
prepended before its paragraph-wrapped body. -/
theorem claim_C10 (wrapPars : List Node → List Node) (parentTag : String)
    (env : EnvNode) (info : Unit) (file : Option VFile)
    (hwf : ∀ n ∈ env.content.filter (fun m => matchMacro m "item"),
      itemWellFormed n = true)
    (hsome : ∃ n ∈ env.content.filter (fun m => matchMacro m "item"),
      itemHasEmptyLabel n = true) :
    (∃ lis, enumerateFactory wrapPars parentTag env info file
        = .ok (.inl (Node.html "dl" lis []), file))
    ∧ ∀ n ∈ env.content.filter (fun m => matchMacro m "item"),
        itemHasEmptyLabel n = true →
        ∃ body, getItemArgs n = .ok ⟨some [], body⟩
          ∧ enumItemToLi wrapPars n
              = .ok ([Node.html "li"
                  (Node.html "title" [] [] :: wrapPars body) []], true) := by
  constructor
  · obtain ⟨c, hc⟩ := collectItems_ok wrapPars _ hwf
    have hany : (env.content.filter (fun m => matchMacro m "item")).any
        itemHasLabel = true := by
      obtain ⟨n, hn, he⟩ := hsome
      exact List.any_eq_true.mpr ⟨n, hn, itemHasLabel_of_emptyLabel n he⟩
    refine ⟨c, ?_⟩
    rw [hany] at hc
    simp only [enumerateFactory, hc, if_true]
  · intro n hn he
    obtain ⟨ia, hia⟩ := itemWellFormed_ok n (hwf n hn)
    obtain ⟨label, body⟩ := ia
    unfold itemHasEmptyLabel at he
    rw [hia] at he
    cases label with
    | none => simp at he
    | some l =>
      cases l with
      | cons x xs => simp at he
      | nil =>
        refine ⟨body, hia, ?_⟩
        have hli := enumItemToLi_of_ok wrapPars n ⟨some [], body⟩ hia
        simpa using hli

/-- C10 witness: a concrete itemize environment whose single item carries a
present-but-empty label is classified as a description list and its item
gains an empty title. -/
theorem claim_C10_witness :
    (∀ n ∈ (EnvNode.mk "itemize" []
        [Node.macroNode "item"
          (some [Arg.mk "[" "]" [], Arg.mk "\x7b" "\x7d" [Node.str "b"]])
          SysDelims.noneHint] []).content.filter
        (fun m => matchMacro m "item"),
      itemWellFormed n = true)
    ∧ (∃ n ∈ (EnvNode.mk "itemize" []
          [Node.macroNode "item"
            (some [Arg.mk "[" "]" [], Arg.mk "\x7b" "\x7d" [Node.str "b"]])
            SysDelims.noneHint] []).content.filter
          (fun m => matchMacro m "item"),
        itemHasEmptyLabel n = true)
    ∧ ((∃ lis, enumerateFactory (fun l => l) "ul"
          (EnvNode.mk "itemize" []
            [Node.macroNode "item"
              (some [Arg.mk "[" "]" [], Arg.mk "\x7b" "\x7d" [Node.str "b"]])
              SysDelims.noneHint] []) () none
          = .ok (.inl (Node.html "dl" lis []), none))
      ∧ ∀ n ∈ (EnvNode.mk "itemize" []
            [Node.macroNode "item"
              (some [Arg.mk "[" "]" [], Arg.mk "\x7b" "\x7d" [Node.str "b"]])
              SysDelims.noneHint] []).content.filter
            (fun m => matchMacro m "item"),
          itemHasEmptyLabel n = true →
          ∃ body, getItemArgs n = .ok ⟨some [], body⟩
            ∧ enumItemToLi (fun l => l) n
                = .ok ([Node.html "li"
                    (Node.html "title" [] [] :: (fun l => l) body) []],
                  true)) := by
  exact ⟨by decide, by decide,
    claim_C10 (fun l => l) "ul" _ () none (by decide) (by decide)⟩

/-- C3: every rule produced by `envFactory`, applied to any environment
node, returns exactly one replacement node — a block element with the
configured tag carrying the composed content and the environment's
additional attributes — never fails, and its only side effect is appending
at most one diagnostic to the sink (none when no file is attached). -/
theorem claim_C3 (wrapPars : List Node → List Node) (tag : String)
    (options : EnvFactoryOptions) (env : EnvNode) (info : Unit)
    (file : Option VFile) :
    ∃ content emitted,
      envFactory wrapPars tag options env info file
        = .ok (.inl (Node.html tag content env.additionalAttributes),
            file.map (fun f => f ++ emitted))
      ∧ replacementCount
          (.inl (Node.html tag content env.additionalAttributes)) = 1
      ∧ emitted.length ≤ 1 := by
  by_cases h : options.warningMessage = ""
  · refine ⟨envFactoryContent wrapPars options env, [], ?_, rfl, by simp⟩
    simp [envFactory, envFactoryWarn, h]
  · refine ⟨envFactoryContent wrapPars options env,
      [makeWarningMessage env options.warningMessage "env-subs"], ?_, rfl, by simp⟩
    simp [envFactory, envFactoryWarn, h]

/-- C5: the environment-removal rule returns the environment's content
sequence unmodified — so the replacement node count equals the original
content length — and records exactly one diagnostic warning naming the
removed environment on the attached file. -/
theorem claim_C5 (env : EnvNode) (info : Unit) (f : VFile) :
    removeEnv env info (some f)
      = .ok (.inr env.content, some (f ++
          [makeWarningMessage env
            ("Warning: There is no equivalent tag for \"" ++ env.env
              ++ "\", so the " ++ env.env ++ " environment was removed.")
            "environment-subs"]))
    ∧ replacementCount (.inr env.content) = env.content.length := by
  exact ⟨rfl, rfl⟩

/-- C6: when the equation-array conversion succeeds, a `systeme` macro with
no attached `sysdelims` render hint is wrapped with `\left` followed by the
default opening-brace token and `\right` followed by the default trailing
period, while a `systeme` macro whose hint carries two resolved delimiter
sequences is wrapped with exactly those two sequences around
`\left`/`\right` and none of the default tokens. -/
theorem claim_C6
    (systemeContentsToArray : List Node → Option (List Node) → Except Unit Node)
    (node : Node) (ret : Node)
    (hconv : systemeContentsToArray (systemeEquations node)
      (systemeWhitelist node) = .ok ret) :
    (sysdelimsOf node = SysDelims.noneHint →
      systemeReplacement systemeContentsToArray node
        = .inr [LEFT, DEFAULT_LEFT_DELIM, ret, RIGHT, DEFAULT_RIGHT_DELIM])
    ∧ ∀ frontDelim backDelim,
        sysdelimsOf node = SysDelims.hint frontDelim backDelim →
        systemeReplacement systemeContentsToArray node
          = .inr ([LEFT] ++ frontDelim ++ [ret, RIGHT] ++ backDelim) := by
  constructor
  · intro hsd
    unfold systemeReplacement
    rw [hconv, hsd]
  · intro frontDelim backDelim hsd
    unfold systemeReplacement
    rw [hconv, hsd]

/-- C6 witness: at a concrete converter and concrete `systeme` nodes, the
rule produces the default delimiter pair when no hint is attached and
exactly the resolved sequences when a hint is attached. -/
theorem claim_C6_witness :
    ((fun (_ : List Node) (_ : Option (List Node)) =>
        (Except.ok (Node.str "X") : Except Unit Node))
      (systemeEquations (Node.macroNode "systeme" none SysDelims.noneHint))
      (systemeWhitelist (Node.macroNode "systeme" none SysDelims.noneHint))
        = .ok (Node.str "X"))
    ∧ systemeReplacement (fun _ _ => .ok (Node.str "X"))
        (Node.macroNode "systeme" none SysDelims.noneHint)
        = .inr [LEFT, DEFAULT_LEFT_DELIM, Node.str "X", RIGHT, DEFAULT_RIGHT_DELIM]
    ∧ systemeReplacement (fun _ _ => .ok (Node.str "X"))
        (Node.macroNode "systeme" none
          (SysDelims.hint [Node.str "("] [Node.str ")"]))
        = .inr ([LEFT] ++ [Node.str "("] ++ [Node.str "X", RIGHT]
            ++ [Node.str ")"]) := by
  refine ⟨rfl, ?_, ?_⟩
  · exact (claim_C6 (fun _ _ => .ok (Node.str "X"))
      (Node.macroNode "systeme" none SysDelims.noneHint) (Node.str "X") rfl).1 rfl
  · exact (claim_C6 (fun _ _ => .ok (Node.str "X"))
      (Node.macroNode "systeme" none
        (SysDelims.hint [Node.str "("] [Node.str ")"])) (Node.str "X") rfl).2
      [Node.str "("] [Node.str ")"] rfl

/-- C1: for every canonical environment name in the alias table and for
every spelling registered for it (the canonical name itself and each
alias), the generated registry maps that selector to a rule that yields
exactly one block element whose tag equals the canonical name — never the
alias spelling. -/
theorem claim_C1 (wrapPars : List Node → List Node) (c : String)
    (spec : EnvAliasSpec) (name : String)
    (hrow : (c, spec) ∈ envAliases)
    (hname : name = c ∨ name ∈ spec.aliases) :
    ∃ rule, jsLookup (genEnvironmentReplacements wrapPars) name = some rule
      ∧ ∀ env info file, ∃ content attrs file2,
          rule env info file
            = .ok (.inl (Node.html c content attrs), file2)
          ∧ replacementCount (.inl (Node.html c content attrs)) = 1 := by
  refine ⟨envFactory wrapPars c
    { requiresStatementTag := spec.requiresStatement }, ?_, ?_⟩
  · apply jsLookup_of_nodup
    · rw [genEnvironmentReplacements_keys]
      exact genKeys_nodup
    · exact mem_exapanded_of_alias wrapPars c spec name hrow hname
  · intro env info file
    exact ⟨envFactoryContent wrapPars _ env, env.additionalAttributes,
      envFactoryWarn _ env file, rfl, rfl⟩

/-- C1 witness: the selector `"thm"`, an alias of `"theorem"` in the alias
table, is mapped by the generated registry to a rule producing a block
tagged `"theorem"`. -/
theorem claim_C1_witness :
    (("theorem",
        (⟨true, ["thm", "theo", "theor", "thmss", "thrm"]⟩ : EnvAliasSpec))
      ∈ envAliases)
    ∧ ("thm" = "theorem"
        ∨ "thm" ∈ (⟨true, ["thm", "theo", "theor", "thmss", "thrm"]⟩ :
            EnvAliasSpec).aliases)
    ∧ ∃ rule, jsLookup (genEnvironmentReplacements (fun l => l)) "thm"
          = some rule
        ∧ ∀ env info file, ∃ content attrs file2,
            rule env info file
              = .ok (.inl (Node.html "theorem" content attrs), file2)
            ∧ replacementCount (.inl (Node.html "theorem" content attrs))
                = 1 := by
  exact ⟨by decide, by decide,
    claim_C1 (fun l => l) "theorem"
      ⟨true, ["thm", "theo", "theor", "thmss", "thrm"]⟩ "thm"
      (by decide) (by decide)⟩

/-- C4: for an environment whose selector is the canonical name or any
alias of a `requiresStatement = true` canonical block and whose first
positional argument (the optional title) was supplied, the registry rule
yields one block tagged with the canonical name whose content is, in
order, a `title` element holding the optional argument's content and then
a `statement` element wrapping the paragraph-grouped body. -/
theorem claim_C4 (wrapPars : List Node → List Node)
    (createTableFromTabular : EnvRule) (c : String) (spec : EnvAliasSpec)
    (name : String) (hrow : (c, spec) ∈ envAliases)
    (hreq : spec.requiresStatement = true)
    (hname : name = c ∨ name ∈ spec.aliases)
    (env : EnvNode) (info : Unit) (file : Option VFile) (title : List Node)
    (harg : (getArgsContentOfEnv env).get? 0 = some (some title)) :
    ∃ rule,
      jsLookup (environmentReplacements wrapPars createTableFromTabular) name
        = some rule
      ∧ rule env info file
          = .ok (.inl (Node.html c
              [Node.html "title" title [],
                Node.html "statement" (wrapPars env.content) []]
              env.additionalAttributes), file) := by
  refine ⟨envFactory wrapPars c
    { requiresStatementTag := spec.requiresStatement }, ?_, ?_⟩
  · apply jsLookup_of_nodup
    · rw [environmentReplacements_keys]
      exact registryKeys_nodup
    · unfold environmentReplacements
      exact List.mem_append_right _
        (mem_exapanded_of_alias wrapPars c spec name hrow hname)
  · rw [hreq]
    have harg2 : (getArgsContentOfEnv env)[0]? = some (some title) := by
      simpa [List.get?_eq_getElem?] using harg
    simp [envFactory, envFactoryContent, envFactoryWarn, harg2]

/-- C4 witness: a concrete `"thm"` environment with optional title
argument `"Pythagoras"` and body text converts, through the assembled
registry, to a block tagged `"theorem"` containing a title element holding
`"Pythagoras"` and then a statement element wrapping the body. -/
theorem claim_C4_witness :
    (("theorem",
        (⟨true, ["thm", "theo", "theor", "thmss", "thrm"]⟩ : EnvAliasSpec))
      ∈ envAliases)
    ∧ (⟨true, ["thm", "theo", "theor", "thmss", "thrm"]⟩ :
        EnvAliasSpec).requiresStatement = true
    ∧ ("thm" = "theorem"
        ∨ "thm" ∈ (⟨true, ["thm", "theo", "theor", "thmss", "thrm"]⟩ :
            EnvAliasSpec).aliases)
    ∧ (getArgsContentOfEnv
          (EnvNode.mk "thm" [Arg.mk "[" "]" [Node.str "Pythagoras"]]
            [Node.str "body"] [])).get? 0
        = some (some [Node.str "Pythagoras"])
    ∧ ∃ rule,
        jsLookup (environmentReplacements (fun l => l)
            (fun _ _ file => .ok (.inr [], file))) "thm"
          = some rule
        ∧ rule (EnvNode.mk "thm" [Arg.mk "[" "]" [Node.str "Pythagoras"]]
              [Node.str "body"] []) () none
            = .ok (.inl (Node.html "theorem"
                [Node.html "title" [Node.str "Pythagoras"] [],
                  Node.html "statement"
                    ((fun l => l) [Node.str "body"]) []] []), none) := by
  exact ⟨by decide, by decide, by decide, rfl,
    claim_C4 (fun l => l) (fun _ _ file => .ok (.inr [], file)) "theorem"
      ⟨true, ["thm", "theo", "theor", "thmss", "thrm"]⟩ "thm"
      (by decide) (by decide) (by decide)
      (EnvNode.mk "thm" [Arg.mk "[" "]" [Node.str "Pythagoras"]]
        [Node.str "body"] []) () none [Node.str "Pythagoras"] rfl⟩

/-- C9: the assembled registry maps each hand-written selector (enumerate,
itemize, tabular, center, quote, figure, table) to its hand-written rule;
moreover no generated alias-table entry shares a selector with a
hand-written entry, so the conditional claim about colliding selectors
holds with this unconditional statement. -/
theorem claim_C9 (wrapPars : List Node → List Node)
    (createTableFromTabular : EnvRule) :
    jsLookup (environmentReplacements wrapPars createTableFromTabular)
        "enumerate" = some (enumerateFactory wrapPars "ol")
    ∧ jsLookup (environmentReplacements wrapPars createTableFromTabular)
        "itemize" = some (enumerateFactory wrapPars "ul")
    ∧ jsLookup (environmentReplacements wrapPars createTableFromTabular)
        "tabular" = some createTableFromTabular
    ∧ jsLookup (environmentReplacements wrapPars createTableFromTabular)
        "center" = some (envFactory wrapPars "blockquote" {})
    ∧ jsLookup (environmentReplacements wrapPars createTableFromTabular)
        "quote" = some (envFactory wrapPars "blockquote" {})
    ∧ jsLookup (environmentReplacements wrapPars createTableFromTabular)
        "figure" = some (envFactory wrapPars "figure"
          { requiresStatementTag := false, wrapContentInPars := false,
            extractTitleFromArgs := false })
    ∧ jsLookup (environmentReplacements wrapPars createTableFromTabular)
        "table" = some (envFactory wrapPars "table"
          { requiresStatementTag := false, wrapContentInPars := false,
            extractTitleFromArgs := false })
    ∧ ∀ k ∈ ["enumerate", "itemize", "tabular", "center", "quote",
        "figure", "table"], k ∉ genKeys := by
  exact ⟨rfl, rfl, rfl, rfl, rfl, rfl, rfl, by decide⟩

/-- C7: when any internal step of the `systeme` rule fails (the fallible
conversion raises), the rule returns the original node unmodified as its
single replacement instead of propagating the failure, and the companion
`sysdelim` rule always rewrites to the empty node sequence. -/
theorem claim_C7
    (systemeContentsToArray : List Node → Option (List Node) → Except Unit Node)
    (node : Node) (e : Unit)
    (hconv : systemeContentsToArray (systemeEquations node)
      (systemeWhitelist node) = .error e) :
    systemeReplacement systemeContentsToArray node = .inl node
    ∧ ∀ m : Node, sysdelimReplacement m = .inr [] := by
  constructor
  · unfold systemeReplacement
    rw [hconv]
  · intro m
    rfl

/-- C7 witness: at a concrete always-failing converter and a concrete
`systeme` node, the rule returns the original node, and the `sysdelim` rule
rewrites a concrete node to nothing. -/
theorem claim_C7_witness :
    ((fun (_ : List Node) (_ : Option (List Node)) =>
        (Except.error () : Except Unit Node))
      (systemeEquations (Node.macroNode "systeme" none SysDelims.noneHint))
      (systemeWhitelist (Node.macroNode "systeme" none SysDelims.noneHint))
        = .error ())
    ∧ systemeReplacement (fun _ _ => .error ())
        (Node.macroNode "systeme" none SysDelims.noneHint)
        = .inl (Node.macroNode "systeme" none SysDelims.noneHint)
    ∧ ∀ m : Node, sysdelimReplacement m = .inr [] := by
  refine ⟨rfl, ?_, ?_⟩
  · exact (claim_C7 (fun _ _ => .error ())
      (Node.macroNode "systeme" none SysDelims.noneHint) () rfl).1
  · exact (claim_C7 (fun _ _ => .error ())
      (Node.macroNode "systeme" none SysDelims.noneHint) () rfl).2

end UnifiedLatexToPretext
